import Mathlib

/-!
Formal model of the stereo reconstruction core of the multi-angle pose
aggregation repository: camera-rig construction, DLT triangulation,
cross-view joint correspondence, disparity-to-depth conversion and the
camera-calibration store.

All numeric code is embedded over `ℚ` (exact arithmetic standing in for the
floating-point arithmetic of the source).  The singular value decomposition
performed by `np.linalg.svd` is an external numerical routine; it is modelled
by an oracle parameter `svd` together with the predicate `svdLastRowSpec`
characterising the property of its output that the source relies on (the last
row of `Vt` is a nonzero null vector of the matrix whenever the matrix is
singular, which is the case in every configuration considered here).
-/

namespace PoseAgg

abbrev Vec2 := Fin 2 → ℚ
abbrev Vec3 := Fin 3 → ℚ
abbrev Vec4 := Fin 4 → ℚ
abbrev CamMatrix := Matrix (Fin 3) (Fin 4) ℚ

/-- Embedding of `create_stereo_camera_matrices` (utils/stereo_utils.py,
lines 12-38): the left camera matrix has identity rotation and zero
translation; the right one is identical except for the `-focal_length *
baseline` entry in the last column of row 0. -/
def create_stereo_camera_matrices (baseline focal_length cx cy : ℚ) :
    CamMatrix × CamMatrix :=
  (Matrix.of ![![focal_length, 0, cx, 0],
               ![0, focal_length, cy, 0],
               ![0, 0, 1, 0]],
   Matrix.of ![![focal_length, 0, cx, -focal_length * baseline],
               ![0, focal_length, cy, 0],
               ![0, 0, 1, 0]])

/-- The 4×4 homogeneous coefficient matrix `A` built by `triangulate_point`
(utils/triangulate_3d_pose.py, lines 13-18). -/
def dltA (p1 p2 : Vec2) (cam_matrix1 cam_matrix2 : CamMatrix) :
    Matrix (Fin 4) (Fin 4) ℚ :=
  Matrix.of ![
    fun j => p1 0 * cam_matrix1 2 j - cam_matrix1 0 j,
    fun j => p1 1 * cam_matrix1 2 j - cam_matrix1 1 j,
    fun j => p2 0 * cam_matrix2 2 j - cam_matrix2 0 j,
    fun j => p2 1 * cam_matrix2 2 j - cam_matrix2 1 j]

/-- Contract of the last row of `Vt` returned by `np.linalg.svd(A)`, in the
case relevant to the source (singular `A`): it is a nonzero vector of the
null space of `A` (the right-singular vector of the smallest singular value,
which is `0` exactly when `A` is singular).  Every use in this file supplies
a singular `A`, so this is a faithful axiomatisation of the property of the
external SVD routine that `triangulate_point` relies on. -/
def svdLastRowSpec (A : Matrix (Fin 4) (Fin 4) ℚ) (v : Vec4) : Prop :=
  v ≠ 0 ∧ A.mulVec v = 0

/-- Lines 20-22 of utils/triangulate_3d_pose.py: `X = X / X[3]; return X[:3]`. -/
def dehomogenize (X : Vec4) : Vec3 :=
  ![X 0 / X 3, X 1 / X 3, X 2 / X 3]

/-- Embedding of `triangulate_point` (utils/triangulate_3d_pose.py, lines
11-22), parametrised by the SVD oracle `svd` standing for `np.linalg.svd`'s
last row of `Vt`. -/
def triangulate_point (svd : Matrix (Fin 4) (Fin 4) ℚ → Vec4)
    (p1 p2 : Vec2) (cam_matrix1 cam_matrix2 : CamMatrix) : Vec3 :=
  dehomogenize (svd (dltA p1 p2 cam_matrix1 cam_matrix2))

/-- Homogeneous lift of a 3D point. -/
def homog (P : Vec3) : Vec4 := ![P 0, P 1, P 2, 1]

/-- Pinhole projection of a 3D point through a 3×4 camera matrix, the
construction named by the round-trip law: map to homogeneous image
coordinates and divide by the third coordinate. -/
def project (M : CamMatrix) (P : Vec3) : Vec2 :=
  ![M.mulVec (homog P) 0 / M.mulVec (homog P) 2,
    M.mulVec (homog P) 1 / M.mulVec (homog P) 2]

/-- The 4×4 homogeneous coefficient matrix `A` built inside the loop of
`triangulate_points` (utils/stereo_utils.py, lines 57-62), written from that
source independently of `dltA`. -/
def stereoDltA (pt_left pt_right : Vec2)
    (camera_matrix_left camera_matrix_right : CamMatrix) :
    Matrix (Fin 4) (Fin 4) ℚ :=
  Matrix.of ![
    fun j => pt_left 0 * camera_matrix_left 2 j - camera_matrix_left 0 j,
    fun j => pt_left 1 * camera_matrix_left 2 j - camera_matrix_left 1 j,
    fun j => pt_right 0 * camera_matrix_right 2 j - camera_matrix_right 0 j,
    fun j => pt_right 1 * camera_matrix_right 2 j - camera_matrix_right 1 j]

/-- The per-point body of the loop of `triangulate_points`
(utils/stereo_utils.py, lines 55-69): build `A`, take the SVD's last
right-singular vector, normalise homogeneous coordinates. -/
def stereoSolveOne (svd : Matrix (Fin 4) (Fin 4) ℚ → Vec4)
    (pt_left pt_right : Vec2)
    (camera_matrix_left camera_matrix_right : CamMatrix) : Vec3 :=
  dehomogenize (svd (stereoDltA pt_left pt_right
    camera_matrix_left camera_matrix_right))

/-- Embedding of `triangulate_points` (utils/stereo_utils.py, lines 40-71):
iterate over the zipped point lists and solve each pair. -/
def triangulate_points (svd : Matrix (Fin 4) (Fin 4) ℚ → Vec4)
    (points_left points_right : List Vec2)
    (camera_matrix_left camera_matrix_right : CamMatrix) : List Vec3 :=
  (points_left.zip points_right).map
    (fun q => stereoSolveOne svd q.1 q.2 camera_matrix_left camera_matrix_right)

/-- C3: for every baseline `b`, focal length `f > 0` and principal point
`(cx, cy)`, the rig builder returns exactly
`MatrixLeft = [[f,0,cx,0],[0,f,cy,0],[0,0,1,0]]`, `MatrixRight` equal to
`MatrixLeft` except that the entry in row 0, column 3 is `-f * b`; for
`b = 0` the two matrices are equal. -/
theorem create_stereo_rig_spec (b f cx cy : ℚ) (hf : 0 < f) :
    (create_stereo_camera_matrices b f cx cy).1 =
      Matrix.of ![![f, 0, cx, 0], ![0, f, cy, 0], ![0, 0, 1, 0]]
    ∧ (∀ i j, (create_stereo_camera_matrices b f cx cy).2 i j =
        if i = 0 ∧ j = 3 then -f * b
        else (create_stereo_camera_matrices b f cx cy).1 i j)
    ∧ (b = 0 → (create_stereo_camera_matrices b f cx cy).1 =
        (create_stereo_camera_matrices b f cx cy).2) := by
  refine ⟨rfl, ?_, ?_⟩
  · intro i j
    fin_cases i <;> fin_cases j <;>
      simp [create_stereo_camera_matrices]
  · intro hb
    subst hb
    ext i j
    fin_cases i <;> fin_cases j <;>
      simp [create_stereo_camera_matrices]

/-- Witness for C3 at `b = 0`, `f = 1`, `(cx, cy) = (320, 240)`. -/
theorem create_stereo_rig_spec_witness :
    (create_stereo_camera_matrices 0 1 320 240).1 =
      (create_stereo_camera_matrices 0 1 320 240).2 :=
  (create_stereo_rig_spec 0 1 320 240 (by norm_num)).2.2 rfl

/-- Helper: for a rig with `f ≠ 0` and nonzero baseline and a point with
`P 2 ≠ 0`, the DLT matrix built from the two projections of `P` has a null
space spanned by `homog P`: every nonzero null vector has nonzero 4th
coordinate and dehomogenizes to `P`. -/
lemma dlt_kernel_unique (b f cx cy : ℚ) (P : Vec3)
    (hf : f ≠ 0) (hb : b ≠ 0) (hZ : P 2 ≠ 0) (w : Vec4) (hw : w ≠ 0)
    (hker : (dltA (project (create_stereo_camera_matrices b f cx cy).1 P)
        (project (create_stereo_camera_matrices b f cx cy).2 P)
        (create_stereo_camera_matrices b f cx cy).1
        (create_stereo_camera_matrices b f cx cy).2).mulVec w = 0) :
    w 3 ≠ 0 ∧ dehomogenize w = P := by
  have e0 := congrFun hker 0
  have e1 := congrFun hker 1
  have e2 := congrFun hker 2
  simp [dltA, create_stereo_camera_matrices, project, homog, Matrix.mulVec,
    Matrix.dotProduct, Fin.sum_univ_four] at e0 e1 e2
  field_simp at e0 e1 e2
  have hA : w 0 * P 2 = P 0 * w 2 := by
    have h : f * (w 0 * P 2) = f * (P 0 * w 2) := by linear_combination -e0
    exact mul_left_cancel₀ hf h
  have hB : w 1 * P 2 = P 1 * w 2 := by
    have h : f * (w 1 * P 2) = f * (P 1 * w 2) := by linear_combination -e1
    exact mul_left_cancel₀ hf h
  have hC : w 2 = P 2 * w 3 := by
    have h : (f * b) * w 2 = (f * b) * (P 2 * w 3) := by linear_combination e0 - e2
    exact mul_left_cancel₀ (mul_ne_zero hf hb) h
  have h3 : w 3 ≠ 0 := by
    intro h3
    apply hw
    have h2 : w 2 = 0 := by rw [hC, h3, mul_zero]
    have h0 : w 0 = 0 := by
      have h := hA
      rw [h2, mul_zero] at h
      exact (mul_eq_zero.mp h).resolve_right hZ
    have h1 : w 1 = 0 := by
      have h := hB
      rw [h2, mul_zero] at h
      exact (mul_eq_zero.mp h).resolve_right hZ
    funext i
    fin_cases i <;> simp [h0, h1, h2, h3]
  refine ⟨h3, ?_⟩
  funext i
  fin_cases i
  · show w 0 / w 3 = P 0
    rw [div_eq_iff h3]
    have h : w 0 * P 2 = P 0 * w 3 * P 2 := by linear_combination hA + P 0 * hC
    exact mul_right_cancel₀ hZ h
  · show w 1 / w 3 = P 1
    rw [div_eq_iff h3]
    have h : w 1 * P 2 = P 1 * w 3 * P 2 := by linear_combination hB + P 1 * hC
    exact mul_right_cancel₀ hZ h
  · show w 2 / w 3 = P 2
    rw [hC, mul_div_assoc, div_self h3, mul_one]

/-- C1 (amended with a nonzero baseline): for every rig built by
`create_stereo_camera_matrices` with `f > 0` and `b ≠ 0` and every 3D point
`P` with well-defined projections (`P 2 ≠ 0`), the DLT matrix built from the
two projections of `P` is singular (so the SVD contract applies), and for
every SVD routine satisfying that contract, `triangulate_point` on the two
projections recovers `P` exactly. -/
theorem triangulate_roundtrip (b f cx cy : ℚ) (P : Vec3)
    (hf : 0 < f) (hb : b ≠ 0) (hZ : P 2 ≠ 0)
    (svd : Matrix (Fin 4) (Fin 4) ℚ → Vec4)
    (hsvd : svdLastRowSpec
      (dltA (project (create_stereo_camera_matrices b f cx cy).1 P)
        (project (create_stereo_camera_matrices b f cx cy).2 P)
        (create_stereo_camera_matrices b f cx cy).1
        (create_stereo_camera_matrices b f cx cy).2)
      (svd (dltA (project (create_stereo_camera_matrices b f cx cy).1 P)
        (project (create_stereo_camera_matrices b f cx cy).2 P)
        (create_stereo_camera_matrices b f cx cy).1
        (create_stereo_camera_matrices b f cx cy).2))) :
    (dltA (project (create_stereo_camera_matrices b f cx cy).1 P)
        (project (create_stereo_camera_matrices b f cx cy).2 P)
        (create_stereo_camera_matrices b f cx cy).1
        (create_stereo_camera_matrices b f cx cy).2).mulVec (homog P) = 0
    ∧ triangulate_point svd
        (project (create_stereo_camera_matrices b f cx cy).1 P)
        (project (create_stereo_camera_matrices b f cx cy).2 P)
        (create_stereo_camera_matrices b f cx cy).1
        (create_stereo_camera_matrices b f cx cy).2 = P := by
  obtain ⟨hv, hker⟩ := hsvd
  constructor
  · funext i
    fin_cases i <;>
      · simp [dltA, create_stereo_camera_matrices, project, homog,
          Matrix.mulVec, Matrix.dotProduct, Fin.sum_univ_four]
        field_simp
        ring
  · exact (dlt_kernel_unique b f cx cy P hf.ne' hb hZ _ hv hker).2

/-- Witness for C1 at `b = 1`, `f = 1`, `(cx, cy) = (0, 0)`, `P = (1, 2, 3)`,
with the SVD oracle returning the null vector `(1, 2, 3, 1)`. -/
theorem triangulate_roundtrip_witness :
    triangulate_point (fun _ => ![1, 2, 3, 1])
      (project (create_stereo_camera_matrices 1 1 0 0).1 ![1, 2, 3])
      (project (create_stereo_camera_matrices 1 1 0 0).2 ![1, 2, 3])
      (create_stereo_camera_matrices 1 1 0 0).1
      (create_stereo_camera_matrices 1 1 0 0).2 = ![1, 2, 3] :=
  (triangulate_roundtrip 1 1 0 0 ![1, 2, 3] (by norm_num) (by norm_num)
    (by norm_num) (fun _ => ![1, 2, 3, 1]) (by
      constructor
      · intro h
        have h0 := congrFun h 0
        norm_num at h0
      · funext i
        fin_cases i <;>
          simp [dltA, create_stereo_camera_matrices, project, homog,
            Matrix.mulVec, Matrix.dotProduct, Fin.sum_univ_four])).2

/-- Counterexample to C1 as stated: the rig builder also produces the
degenerate rig with baseline `0` (two identical cameras), and there the
round-trip law fails.  At `b = 0`, `f = 1`, `(cx, cy) = (0, 0)` and
`P = (0, 0, 5)` (whose projections are well defined, `P 2 = 5 ≠ 0`), the
vector `(0, 0, 0, 1)` is a valid output of the SVD contract on the DLT
matrix of the two projections, yet dehomogenizing it yields `(0, 0, 0) ≠ P`:
the code is not guaranteed to recover `P`. -/
theorem triangulate_roundtrip_cex :
    svdLastRowSpec
      (dltA (project (create_stereo_camera_matrices 0 1 0 0).1 ![0, 0, 5])
        (project (create_stereo_camera_matrices 0 1 0 0).2 ![0, 0, 5])
        (create_stereo_camera_matrices 0 1 0 0).1
        (create_stereo_camera_matrices 0 1 0 0).2)
      ![0, 0, 0, 1]
    ∧ (![(0 : ℚ), 0, 5] : Vec3) 2 ≠ 0
    ∧ triangulate_point (fun _ => ![0, 0, 0, 1])
        (project (create_stereo_camera_matrices 0 1 0 0).1 ![0, 0, 5])
        (project (create_stereo_camera_matrices 0 1 0 0).2 ![0, 0, 5])
        (create_stereo_camera_matrices 0 1 0 0).1
        (create_stereo_camera_matrices 0 1 0 0).2 ≠ ![0, 0, 5] := by
  refine ⟨⟨?_, ?_⟩, ?_, ?_⟩
  · intro h
    have h3 := congrFun h 3
    norm_num at h3
  · funext i
    fin_cases i <;>
      simp [dltA, create_stereo_camera_matrices, project, homog,
        Matrix.mulVec, Matrix.dotProduct, Fin.sum_univ_four]
  · norm_num
  · intro h
    have h2 := congrFun h 2
    simp [triangulate_point, dehomogenize] at h2

/-- C2: at the degenerate input named by the claim — identical camera
matrices (the rig at baseline `0`) and identical projections — the minimal
singular subspace of the DLT matrix contains the vector `(0, 0, 1, 0)`,
whose 4th coordinate is `0`; `triangulate_point` (triangulate_3d_pose.py,
lines 19-22) divides by that coordinate unconditionally, so nothing detects
the degeneracy (no `DegenerateTriangulation` is surfaced; in NumPy the
division produces `inf`/`NaN`). -/
theorem triangulate_degenerate_unguarded :
    (create_stereo_camera_matrices 0 1 0 0).1 =
      (create_stereo_camera_matrices 0 1 0 0).2
    ∧ svdLastRowSpec
        (dltA ![0, 0] ![0, 0] (create_stereo_camera_matrices 0 1 0 0).1
          (create_stereo_camera_matrices 0 1 0 0).2)
        ![0, 0, 1, 0]
    ∧ (![(0 : ℚ), 0, 1, 0] : Vec4) 3 = 0 := by
  refine ⟨?_, ⟨?_, ?_⟩, rfl⟩
  · ext i j
    fin_cases i <;> fin_cases j <;> simp [create_stereo_camera_matrices]
  · intro h
    have h2 := congrFun h 2
    norm_num at h2
  · funext i
    fin_cases i <;>
      simp [dltA, create_stereo_camera_matrices, Matrix.mulVec,
        Matrix.dotProduct, Fin.sum_univ_four]

/-- C10: the DLT implementation of `triangulate_point`
(utils/triangulate_3d_pose.py) and the per-point DLT computation inside
`triangulate_points` (utils/stereo_utils.py) build the same 4×4 coefficient
matrix and, fed the same SVD routine, return the same dehomogenized 3D
point, also when mapped over whole point lists. -/
theorem dlt_implementations_agree (svd : Matrix (Fin 4) (Fin 4) ℚ → Vec4)
    (p1 p2 : Vec2) (M1 M2 : CamMatrix) :
    stereoDltA p1 p2 M1 M2 = dltA p1 p2 M1 M2
    ∧ stereoSolveOne svd p1 p2 M1 M2 = triangulate_point svd p1 p2 M1 M2
    ∧ ∀ ptsL ptsR : List Vec2,
        triangulate_points svd ptsL ptsR M1 M2 =
          (ptsL.zip ptsR).map (fun q => triangulate_point svd q.1 q.2 M1 M2) :=
  ⟨rfl, rfl, fun _ _ => rfl⟩

/-- One frame of keypoints: a joint-identifier-indexed mapping to 2D pixel
positions.  Python dicts preserve insertion order and the source iterates
`frame1.keys()`, so a frame is modelled as an association list (`x` and `y`
are the only joint attributes the triangulation path reads). -/
abbrev Frame := List (String × (ℚ × ℚ))

/-- Helper: a key has a `lookup` hit exactly when it occurs among the keys. -/
lemma lookup_isSome_iff {β : Type} (l : List (String × β)) (k : String) :
    (l.lookup k).isSome ↔ k ∈ l.map Prod.fst := by
  induction l with
  | nil => simp [List.lookup]
  | cons e t ih =>
    by_cases h : k = e.1
    · simp [List.lookup, h]
    · have hbeq : (k == e.1) = false := by simp [h]
      simp [List.lookup, hbeq, ih, h]

/-- The inner loop body of `triangulate_all_frames`
(utils/triangulate_3d_pose.py, lines 28-46): for each joint of view 1's
frame, skip it if absent from view 2's frame, otherwise triangulate the two
2D positions and record the result under the joint's name. -/
def triangulateFramePair (svd : Matrix (Fin 4) (Fin 4) ℚ → Vec4)
    (cam_matrix1 cam_matrix2 : CamMatrix) (frame1 frame2 : Frame) :
    List (String × Vec3) :=
  frame1.filterMap (fun e =>
    (frame2.lookup e.1).map (fun p2 =>
      (e.1, triangulate_point svd ![e.2.1, e.2.2] ![p2.1, p2.2]
        cam_matrix1 cam_matrix2)))

/-- Embedding of `triangulate_all_frames` (utils/triangulate_3d_pose.py,
lines 24-48): iterate over frame pairs by position (`zip`), producing one
joint map per pair. -/
def triangulate_all_frames (svd : Matrix (Fin 4) (Fin 4) ℚ → Vec4)
    (view1_data view2_data : List Frame)
    (cam_matrix1 cam_matrix2 : CamMatrix) : List (List (String × Vec3)) :=
  (view1_data.zip view2_data).map
    (fun fp => triangulateFramePair svd cam_matrix1 cam_matrix2 fp.1 fp.2)

/-- Helper: a frame pair with no common joint produces the empty joint map. -/
lemma triangulateFramePair_eq_nil_of_disjoint
    (svd : Matrix (Fin 4) (Fin 4) ℚ → Vec4) (M1 M2 : CamMatrix)
    (frame1 frame2 : Frame)
    (h : ∀ k ∈ frame1.map Prod.fst, k ∉ frame2.map Prod.fst) :
    triangulateFramePair svd M1 M2 frame1 frame2 = [] := by
  rw [triangulateFramePair, List.filterMap_eq_nil_iff]
  intro e he
  have hk : frame2.lookup e.1 = none := by
    rw [← Option.not_isSome_iff_eq_none, lookup_isSome_iff]
    exact h e.1 (List.mem_map_of_mem Prod.fst he)
  rw [hk]
  rfl

/-- C4: per-frame correspondence filtering.  For every frame pair, the
emitted joint identifiers are exactly view 1's identifiers filtered by
presence in view 2 (in view 1's iteration order); an identifier is emitted
iff it is present in both frames; in particular view 1 with joints
`{0, 1, 2}` and view 2 with joints `{0, 2}` yields exactly `{0, 2}`, in that
order. -/
theorem correspondence_filtering (svd : Matrix (Fin 4) (Fin 4) ℚ → Vec4)
    (M1 M2 : CamMatrix) (frame1 frame2 : Frame) :
    ((triangulateFramePair svd M1 M2 frame1 frame2).map Prod.fst
      = (frame1.map Prod.fst).filter (fun k => (frame2.lookup k).isSome))
    ∧ (∀ k, k ∈ (triangulateFramePair svd M1 M2 frame1 frame2).map Prod.fst
        ↔ k ∈ frame1.map Prod.fst ∧ k ∈ frame2.map Prod.fst)
    ∧ (triangulateFramePair svd M1 M2
        [("joint_0", (1, 2)), ("joint_1", (3, 4)), ("joint_2", (5, 6))]
        [("joint_0", (7, 8)), ("joint_2", (9, 10))]).map Prod.fst
      = ["joint_0", "joint_2"] := by
  have hfilter : (triangulateFramePair svd M1 M2 frame1 frame2).map Prod.fst
      = (frame1.map Prod.fst).filter (fun k => (frame2.lookup k).isSome) := by
    rw [triangulateFramePair]
    induction frame1 with
    | nil => simp
    | cons e t ih =>
      cases h : frame2.lookup e.1 with
      | none => simp [List.filterMap_cons, h, List.filter_cons, ih]
      | some p2 => simp [List.filterMap_cons, h, List.filter_cons, ih]
  refine ⟨hfilter, ?_, ?_⟩
  · intro k
    rw [hfilter, List.mem_filter]
    simp [lookup_isSome_iff]
  · rfl

/-- C5: batch shape and order.  `triangulate_all_frames` returns exactly
`min (length view1) (length view2)` joint maps (truncating at the shorter
session), the map at position `i` is computed from the frames at position
`i` of each view (frame order preserved), and a frame pair with no common
joint contributes an empty joint map at its position rather than being
omitted. -/
theorem batch_shape_and_order (svd : Matrix (Fin 4) (Fin 4) ℚ → Vec4)
    (M1 M2 : CamMatrix) (view1_data view2_data : List Frame) :
    (triangulate_all_frames svd view1_data view2_data M1 M2).length
      = min view1_data.length view2_data.length
    ∧ (∀ (i : ℕ) (f1 f2 : Frame),
        view1_data[i]? = some f1 → view2_data[i]? = some f2 →
        (triangulate_all_frames svd view1_data view2_data M1 M2)[i]?
          = some (triangulateFramePair svd M1 M2 f1 f2))
    ∧ (∀ (i : ℕ) (f1 f2 : Frame),
        view1_data[i]? = some f1 → view2_data[i]? = some f2 →
        (∀ k ∈ f1.map Prod.fst, k ∉ f2.map Prod.fst) →
        (triangulate_all_frames svd view1_data view2_data M1 M2)[i]?
          = some []) := by
  have hpt : ∀ (i : ℕ) (f1 f2 : Frame),
      view1_data[i]? = some f1 → view2_data[i]? = some f2 →
      (triangulate_all_frames svd view1_data view2_data M1 M2)[i]?
        = some (triangulateFramePair svd M1 M2 f1 f2) := by
    intro i f1 f2 h1 h2
    have hz : (view1_data.zip view2_data)[i]? = some (f1, f2) := by
      rw [List.getElem?_zip_eq_some]
      exact ⟨h1, h2⟩
    rw [triangulate_all_frames, List.getElem?_map, hz]
    rfl
  refine ⟨?_, hpt, ?_⟩
  · rw [triangulate_all_frames, List.length_map, List.length_zip]
  · intro i f1 f2 h1 h2 hdisj
    rw [hpt i f1 f2 h1 h2,
      triangulateFramePair_eq_nil_of_disjoint svd M1 M2 f1 f2 hdisj]

/-- Witness for C5: a one-frame session pair whose frames share no joint
yields a sequence holding exactly one empty joint map. -/
theorem batch_shape_and_order_witness :
    (triangulate_all_frames (fun _ => ![0, 0, 0, 1])
      [[("joint_0", (1, 2))]] [[("joint_1", (3, 4))]]
      (create_stereo_camera_matrices 10 640 320 240).1
      (create_stereo_camera_matrices 10 640 320 240).2)[0]? = some [] :=
  (batch_shape_and_order (fun _ => ![0, 0, 0, 1])
      (create_stereo_camera_matrices 10 640 320 240).1
      (create_stereo_camera_matrices 10 640 320 240).2
      [[("joint_0", (1, 2))]] [[("joint_1", (3, 4))]]).2.2 0
    [("joint_0", (1, 2))] [("joint_1", (3, 4))] rfl rfl (by simp)

/-- Embedding of `depth_from_disparity` (utils/stereo_utils.py, lines
117-136): copy the disparity grid, set entries equal to `0` to `0.1`, then
divide `baseline * focal_length` by the masked grid elementwise. -/
def depth_from_disparity (disparity : List (List ℚ))
    (baseline focal_length : ℚ) : List (List ℚ) :=
  disparity.map (List.map (fun d =>
    baseline * focal_length / (if d = 0 then 1 / 10 else d)))

/-- Counterexample to C6 as stated: no epsilon makes the code agree with
`depth = baseline * focalLength / max(disparity, epsilon)`.  The zero pixel
forces `epsilon = 0.1`, but a near-zero pixel such as `1/20` is divided
as-is (yielding `20·b·f`) instead of being clamped to `0.1` (which would
yield `10·b·f`). -/
theorem depth_from_disparity_cex :
    ¬ ∃ ε : ℚ, 0 < ε ∧ ∀ d b f : ℚ,
        depth_from_disparity [[d]] b f = [[b * f / max d ε]] := by
  rintro ⟨ε, hε, h⟩
  have h0 := h 0 1 1
  have h1 := h (1 / 20) 1 1
  simp [depth_from_disparity] at h0 h1
  rw [max_eq_right hε.le] at h0
  have hε' : ε = 1 / 10 := by
    have hne : ε ≠ 0 := hε.ne'
    field_simp at h0
    linarith
  subst hε'
  rw [max_eq_right (by norm_num)] at h1
  norm_num at h1

/-- C6 (amended): `depth_from_disparity` replaces exactly-zero disparities
by `0.1` and divides `baseline * focal_length` by every other entry as-is;
the masked denominator is never zero, and on an all-zero disparity map with
positive baseline and focal length every output pixel is the finite positive
value `10 * (baseline * focal_length)`. -/
theorem depth_from_disparity_spec (disparity : List (List ℚ))
    (baseline focal_length : ℚ)
    (hb : 0 < baseline) (hf : 0 < focal_length)
    (hz : ∀ row ∈ disparity, ∀ d ∈ row, d = 0) :
    (∀ d : ℚ, (if d = 0 then 1 / 10 else d) ≠ 0)
    ∧ (∀ row ∈ depth_from_disparity disparity baseline focal_length,
        ∀ v ∈ row, v = 10 * (baseline * focal_length) ∧ 0 < v) := by
  constructor
  · intro d
    by_cases hd : d = 0 <;> simp [hd]
  · intro row hrow v hv
    rw [depth_from_disparity, List.mem_map] at hrow
    obtain ⟨row0, hrow0, hrowEq⟩ := hrow
    subst hrowEq
    rw [List.mem_map] at hv
    obtain ⟨d, hd, hvEq⟩ := hv
    subst hvEq
    rw [hz row0 hrow0 d hd]
    have hEq : baseline * focal_length / (if (0 : ℚ) = 0 then 1 / 10 else 0)
        = 10 * (baseline * focal_length) := by
      norm_num
      ring
    rw [hEq]
    exact ⟨rfl, by positivity⟩

/-- Witness for C6 on an all-zero grid with `b = 5`, `f = 640`: the pixel
value `32000` produced there is `10 * (5 * 640)` and positive. -/
theorem depth_from_disparity_spec_witness :
    (32000 : ℚ) = 10 * (5 * 640) ∧ (0 : ℚ) < 32000 :=
  (depth_from_disparity_spec [[0, 0], [0]] 5 640 (by norm_num) (by norm_num)
      (by decide)).2
    [32000, 32000] (by norm_num [depth_from_disparity]) 32000 (by norm_num)

/-- State of `CameraCalibrator` (utils/camera_calibration.py, lines 13-41).
`V` stands for a NumPy array value: `np.array` applied to loaded JSON never
validates numeric content, so the calibration results are modelled
generically.  Image-point entries are the corner arrays appended by
`add_calibration_image`, of NumPy shape `(N, 1, 2)`, modelled as a list of
`N` singleton lists of 2D points. -/
structure CameraCalibrator (V : Type) where
  objp : List (ℚ × ℚ × ℚ)
  objpoints : List (List (ℚ × ℚ × ℚ))
  imgpoints : List (List (List (ℚ × ℚ)))
  camera_matrix : Option V
  dist_coeffs : Option V
  rvecs : Option V
  tvecs : Option V

/-- The object-point template of `CameraCalibrator.__init__` (lines 29-31):
`np.mgrid[0:w, 0:h].T.reshape(-1, 2)` scaled by `square_size`, i.e. the
points `(i * s, j * s, 0)` with `j` the outer index. -/
def mkObjp (w h : ℕ) (square_size : ℚ) : List (ℚ × ℚ × ℚ) :=
  (List.range h).flatMap (fun j =>
    (List.range w).map (fun i => (square_size * i, square_size * j, 0)))

/-- Initial calibrator state (`__init__`, lines 17-41). -/
def CameraCalibrator.init (V : Type) (chessboard_size : ℕ × ℕ)
    (square_size : ℚ) : CameraCalibrator V :=
  { objp := mkObjp chessboard_size.1 chessboard_size.2 square_size
    objpoints := []
    imgpoints := []
    camera_matrix := none
    dist_coeffs := none
    rvecs := none
    tvecs := none }

/-- Embedding of `add_calibration_image` (lines 43-74).  `detect` stands for
the external corner detector (`cv2.findChessboardCorners` followed by
`cv2.cornerSubPix`), returning `none` when no chessboard is found.  On
success one `(objp, corners)` pair is appended; the corner array has shape
`(N, 1, 2)`. -/
def CameraCalibrator.add_calibration_image {V Img : Type}
    (detect : Img → Option (List (ℚ × ℚ)))
    (st : CameraCalibrator V) (image : Img) : Bool × CameraCalibrator V :=
  match detect image with
  | none => (false, st)
  | some corners =>
      (true, { st with
        objpoints := st.objpoints ++ [st.objp]
        imgpoints := st.imgpoints ++ [corners.map (fun c => [c])] })

/-- Embedding of `calibrate` (lines 76-98).  `solve` stands for the external
solver `cv2.calibrateCamera`, returning `(ret, mtx, dist, rvecs, tvecs)`; it
receives the image shape reversed (`image_shape[::-1]`, i.e. width-height),
exactly as in the source. -/
def CameraCalibrator.calibrate {V : Type}
    (solve : List (List (ℚ × ℚ × ℚ)) → List (List (List (ℚ × ℚ))) →
      ℕ × ℕ → Bool × V × V × V × V)
    (st : CameraCalibrator V) (image_shape : ℕ × ℕ) :
    Bool × CameraCalibrator V :=
  if st.objpoints.length < 5 then
    (false, st)
  else
    let r := solve st.objpoints st.imgpoints (image_shape.2, image_shape.1)
    (r.1, { st with
      camera_matrix := some r.2.1
      dist_coeffs := some r.2.2.1
      rvecs := some r.2.2.2.1
      tvecs := some r.2.2.2.2 })

/-- The record written by `save_calibration` (lines 111-115). -/
structure CalibrationData (V : Type) where
  camera_matrix : V
  dist_coeffs : V
  image_shape : ℕ × ℕ

/-- Embedding of `save_calibration` (lines 100-120): refuses (`return
False`) when no calibration data is present, otherwise writes the record
with `image_shape = self.imgpoints[0].shape[0:2]` — the shape of the first
corner array, not of the calibration images.  The source indexes
`imgpoints[0]` unguardedly (an `IndexError` if empty, and an
`AttributeError` if `dist_coeffs` is unset while `camera_matrix` is set);
both situations are unreachable through `calibrate` and are mapped to
`none` here. -/
def CameraCalibrator.save_calibration {V : Type}
    (st : CameraCalibrator V) : Option (CalibrationData V) :=
  match st.camera_matrix, st.dist_coeffs, st.imgpoints with
  | some cm, some dc, first :: _ =>
      some { camera_matrix := cm
             dist_coeffs := dc
             image_shape := (first.length, (first.headD []).length) }
  | _, _, _ => none

/-- Embedding of `load_calibration` (lines 122-138): the two field
assignments `self.camera_matrix = np.array(data["camera_matrix"])` and
`self.dist_coeffs = np.array(data["dist_coeffs"])` run in order; a missing
key raises a `KeyError` that the blanket `except` turns into `return False`
— after any earlier assignment has already taken effect.  `np.array`
accepts arbitrary JSON values, so no numeric validation occurs (`V` is
generic). -/
def CameraCalibrator.load_calibration {V : Type}
    (st : CameraCalibrator V) (data : List (String × V)) :
    Bool × CameraCalibrator V :=
  match data.lookup "camera_matrix" with
  | none => (false, st)
  | some cm =>
      match data.lookup "dist_coeffs" with
      | none => (false, { st with camera_matrix := some cm })
      | some dc =>
          (true, { st with camera_matrix := some cm, dist_coeffs := some dc })

/-- C7: calibration gating.  With fewer than 5 accepted images `calibrate`
fails without invoking the solver (the result is `(False, st)` for every
solver); with 5 or more it proceeds to the solve and stores its results. -/
theorem calibrate_gating {V : Type} (st : CameraCalibrator V)
    (image_shape : ℕ × ℕ)
    (solve : List (List (ℚ × ℚ × ℚ)) → List (List (List (ℚ × ℚ))) →
      ℕ × ℕ → Bool × V × V × V × V) :
    (st.objpoints.length < 5 →
      st.calibrate solve image_shape = (false, st))
    ∧ (5 ≤ st.objpoints.length →
      st.calibrate solve image_shape =
        ((solve st.objpoints st.imgpoints (image_shape.2, image_shape.1)).1,
         { st with
            camera_matrix := some (solve st.objpoints st.imgpoints
              (image_shape.2, image_shape.1)).2.1
            dist_coeffs := some (solve st.objpoints st.imgpoints
              (image_shape.2, image_shape.1)).2.2.1
            rvecs := some (solve st.objpoints st.imgpoints
              (image_shape.2, image_shape.1)).2.2.2.1
            tvecs := some (solve st.objpoints st.imgpoints
              (image_shape.2, image_shape.1)).2.2.2.2 })) := by
  constructor
  · intro h
    rw [CameraCalibrator.calibrate, if_pos h]
  · intro h
    rw [CameraCalibrator.calibrate, if_neg (by omega)]

/-- Witness for C7: after 4 accepted chessboard images `calibrate` fails and
leaves the state unchanged; after 5 it proceeds and returns the solver's
status. -/
theorem calibrate_gating_witness :
    (((List.replicate 4 ()).foldl
        (fun s _ => (s.add_calibration_image (fun _ => some [(0, 0)]) ()).2)
        (CameraCalibrator.init Bool (9, 6) (5 / 2))).calibrate
      (fun _ _ _ => (true, true, true, true, true)) (480, 640)
      = (false, (List.replicate 4 ()).foldl
          (fun s _ => (s.add_calibration_image (fun _ => some [(0, 0)]) ()).2)
          (CameraCalibrator.init Bool (9, 6) (5 / 2))))
    ∧ ((((List.replicate 5 ()).foldl
        (fun s _ => (s.add_calibration_image (fun _ => some [(0, 0)]) ()).2)
        (CameraCalibrator.init Bool (9, 6) (5 / 2))).calibrate
      (fun _ _ _ => (true, true, true, true, true)) (480, 640)).1 = true) := by
  constructor
  · exact (calibrate_gating _ (480, 640) _).1 (by decide)
  · rw [(calibrate_gating _ (480, 640) _).2 (by decide)]

/-- Counterexample to C8 as stated: a calibration file holding a
`camera_matrix` key but no `dist_coeffs` key makes `load_calibration` report
failure, yet the calibrator's stored camera matrix has already been
overwritten (the prior state is not left unchanged); moreover a file whose
values are non-numeric (here strings) loads with success, since `np.array`
never validates content. -/
theorem load_calibration_cex :
    (((⟨[], [], [], some 1, some 2, none, none⟩ :
        CameraCalibrator ℕ).load_calibration [("camera_matrix", 5)]).1 = false)
    ∧ (((⟨[], [], [], some 1, some 2, none, none⟩ :
        CameraCalibrator ℕ).load_calibration
          [("camera_matrix", 5)]).2.camera_matrix = some 5)
    ∧ (some 5 ≠ some 1)
    ∧ (((⟨[], [], [], some "A", some "B", none, none⟩ :
        CameraCalibrator String).load_calibration
          [("camera_matrix", "nan"), ("dist_coeffs", "oops")]).1 = true) := by
  refine ⟨rfl, rfl, by decide, rfl⟩

/-- C8 (amended): `load_calibration` reports failure exactly when one of the
two keys is missing (values are never validated, so non-numeric data loads
with success); when `camera_matrix` itself is missing the state is fully
unchanged; when `camera_matrix` is present but `dist_coeffs` is missing, the
stored camera matrix is overwritten with the file's value before the failure
is reported, while the stored distortion coefficients are unchanged on every
failure path. -/
theorem load_calibration_spec {V : Type} (st : CameraCalibrator V)
    (data : List (String × V)) :
    ((st.load_calibration data).1 = true ↔
      ((data.lookup "camera_matrix").isSome
        ∧ (data.lookup "dist_coeffs").isSome))
    ∧ (data.lookup "camera_matrix" = none →
        (st.load_calibration data).2 = st)
    ∧ (∀ cm, data.lookup "camera_matrix" = some cm →
        data.lookup "dist_coeffs" = none →
        (st.load_calibration data).2 = { st with camera_matrix := some cm })
    ∧ ((st.load_calibration data).1 = false →
        (st.load_calibration data).2.dist_coeffs = st.dist_coeffs) := by
  refine ⟨?_, ?_, ?_, ?_⟩
  · cases h1 : data.lookup "camera_matrix" with
    | none => simp [CameraCalibrator.load_calibration, h1]
    | some cm =>
      cases h2 : data.lookup "dist_coeffs" with
      | none => simp [CameraCalibrator.load_calibration, h1, h2]
      | some dc => simp [CameraCalibrator.load_calibration, h1, h2]
  · intro h1
    simp [CameraCalibrator.load_calibration, h1]
  · intro cm h1 h2
    simp [CameraCalibrator.load_calibration, h1, h2]
  · intro hfalse
    cases h1 : data.lookup "camera_matrix" with
    | none => simp [CameraCalibrator.load_calibration, h1]
    | some cm =>
      cases h2 : data.lookup "dist_coeffs" with
      | none => simp [CameraCalibrator.load_calibration, h1, h2]
      | some dc =>
        rw [CameraCalibrator.load_calibration] at hfalse
        simp [h1, h2] at hfalse

/-- Witness for C8 (amended): loading an empty mapping fails and leaves the
prior calibrator state fully unchanged. -/
theorem load_calibration_spec_witness :
    ((⟨[], [], [], some 1, some 2, none, none⟩ :
      CameraCalibrator ℕ).load_calibration []).2 =
      (⟨[], [], [], some 1, some 2, none, none⟩ : CameraCalibrator ℕ) :=
  (load_calibration_spec
    (⟨[], [], [], some 1, some 2, none, none⟩ : CameraCalibrator ℕ) []).2.1 rfl

/-- C9 (code bug): after a full calibration run on five 480×640 images of a
9×6 chessboard (54 detected corners per image), the record written by
`save_calibration` carries `image_shape = (54, 1)` — the NumPy shape of the
first corner array (`self.imgpoints[0].shape[0:2]`, a `(54, 1, 2)` array) —
not the height and width `(480, 640)` of the calibration images that the
persisted-format contract prescribes. -/
theorem save_calibration_image_shape_bug :
    ((((List.replicate 5 ()).foldl
        (fun s _ => (s.add_calibration_image
          (fun _ => some ((List.range 54).map (fun i => ((i : ℚ), (i : ℚ)))))
          ()).2)
        (CameraCalibrator.init Bool (9, 6) (5 / 2))).calibrate
      (fun _ _ _ => (true, true, true, true, true))
      (480, 640)).2.save_calibration
      = some ⟨true, true, (54, 1)⟩)
    ∧ ((54, 1) ≠ ((480 : ℕ), (640 : ℕ))) :=
  ⟨rfl, by decide⟩

end PoseAgg
